import Mathlib

/-
  Verification development for the Literature Aggregation Engine of
  OpenDeepResearcher (src/utils/academic_search.py and src/pages/analysis.py).

  Strings are modelled as lists of characters (`Str`); all Python string
  operations used by the code (lower, strip, split, substring test, regular
  expressions actually occurring in the source) are given executable
  translations over the ASCII range in which the program operates.
-/

namespace ODR

abbrev Str := List Char

/-- Python `str.lower()` (ASCII range). -/
def lowerStr (s : Str) : Str := s.map Char.toLower

/-- The ASCII whitespace characters recognized by Python's `str.strip`,
`str.split` and the regex class `\s`. -/
def isPySpace (c : Char) : Bool :=
  c == ' ' || c == '\t' || c == '\n' || c == '\r' || c == '\x0b' || c == '\x0c'

/-- Python `str.strip()`: drop whitespace from both ends. -/
def pyStrip (s : Str) : Str :=
  ((s.dropWhile isPySpace).reverse.dropWhile isPySpace).reverse

/-- Group a string into maximal runs of characters agreeing on `p`
(each run is tagged with the common value of `p`). -/
def runs (p : Char → Bool) : Str → List (Bool × Str)
  | [] => []
  | c :: rest =>
    match runs p rest with
    | [] => [(p c, [c])]
    | (b, r) :: tail =>
      if p c = b then (p c, c :: r) :: tail else (p c, [c]) :: (b, r) :: tail

/-- `re.sub(r'\s+', ' ', s)`: replace each maximal whitespace run by one space. -/
def collapseWS (s : Str) : Str :=
  ((runs isPySpace s).map (fun br => if br.1 then [' '] else br.2)).flatten

/-- Python `str.split()` with no argument: maximal non-whitespace runs. -/
def pySplit (s : Str) : List Str :=
  ((runs (fun c => !(isPySpace c)) s).filter (fun br => br.1)).map (fun br => br.2)

/-- Python `s.split(sep)[0]`: the prefix of `s` before the first `sep`. -/
def splitFirst (sep : Char) (s : Str) : Str := s.takeWhile (fun c => c != sep)

/-- Keep the first element for each key, in order (`DataFrame.drop_duplicates`
with `keep='first'`, and Python's seen-set dedup idiom). -/
def dedupByGo (key : α → Str) (seen : List Str) : List α → List α
  | [] => []
  | a :: rest =>
    if key a ∈ seen then dedupByGo key seen rest
    else a :: dedupByGo key (key a :: seen) rest

/-- One candidate bibliographic record as produced by a source adapter, before
source metadata is attached (`academic_search.py`, article dicts). -/
structure RawArticle where
  title : Str
  authors : Option Str
  abstract : Option Str
  url : Option Str
  year : Option Int
deriving DecidableEq

/-- An article after `search_all_sources` attaches `source`, `search_method`
and `keywords_used` (academic_search.py lines 143-146). -/
structure TaggedArticle extends RawArticle where
  source : Str
  searchMethod : Str
  keywordsUsed : Str
deriving DecidableEq

/-- One row of the final search-result DataFrame after
`clean_article_data` selects the required columns. -/
structure CorpusRow where
  id : Nat
  title : Str
  authors : Str
  abstract : Str
  source : Str
  url : Str
  year : Int
deriving DecidableEq

/-- `df['id'] = range(1, len(df) + 1)` (academic_search.py line 167):
ids are attached in aggregation order starting at `n`. -/
def withIds (n : Nat) : List TaggedArticle → List (Nat × TaggedArticle)
  | [] => []
  | a :: rest => (n, a) :: withIds (n + 1) rest

/-- `RobustAcademicSearcher.remove_duplicates` (lines 1656-1669):
`df.drop_duplicates(subset=['title'], keep='first')` -- exact title equality,
first occurrence kept, order preserved (`reset_index(drop=True)`). -/
def removeDuplicates (rows : List (Nat × TaggedArticle)) : List (Nat × TaggedArticle) :=
  dedupByGo (fun r => r.2.title) [] rows

/-- `RobustAcademicSearcher.clean_article_data` (lines 1671-1697) applied to
one row: fill missing values, strip and whitespace-collapse title and
abstract, cap the abstract at 1000 characters, select required columns. -/
def cleanRow (r : Nat × TaggedArticle) : CorpusRow :=
  { id := r.1
    title := collapseWS (pyStrip r.2.title)
    authors := r.2.authors.getD "Unknown".data
    abstract := (collapseWS (pyStrip (r.2.abstract.getD []))).take 1000
    source := r.2.source
    url := r.2.url.getD []
    year := r.2.year.getD 0 }

/-- `clean_article_data` over the whole DataFrame. -/
def cleanArticleData (rows : List (Nat × TaggedArticle)) : List CorpusRow :=
  rows.map cleanRow

/-- The result-processing block of `search_all_sources` (lines 164-179):
assign ids 1..n, remove duplicates, clean. -/
def processResults (arts : List TaggedArticle) : List CorpusRow :=
  cleanArticleData (removeDuplicates (withIds 1 arts))

/-! ### Term planner (`prepare_search_terms` and helpers) -/

/-- Characters of the regex class `\w` (ASCII range). -/
def isWordChar (c : Char) : Bool := c.isAlpha || c.isDigit || c == '_'

/-- `re.findall(r'\b[a-zA-Z][a-zA-Z0-9]*\b', s)`: the maximal `\w`-runs of `s`
that start with a letter and contain no underscore (runs violating either
condition admit no match because `\b` holds only at run boundaries). -/
def wordTokens (s : Str) : List Str :=
  (((runs isWordChar s).filter (fun br => br.1)).map (fun br => br.2)).filter
    (fun t => (match t with | c :: _ => c.isAlpha | [] => false) && !(t.contains '_'))

/-- Stop words of `extract_search_terms_from_research_question`
(academic_search.py lines 633-640). -/
def rqStopWords : List Str :=
  ["is".data, "are".data, "was".data, "were".data, "can".data, "could".data,
   "will".data, "would".data, "should".data, "shall".data,
   "does".data, "do".data, "did".data, "has".data, "have".data, "had".data,
   "the".data, "a".data, "an".data, "and".data, "or".data, "but".data,
   "in".data, "on".data, "at".data, "to".data, "for".data, "of".data,
   "with".data, "by".data, "from".data, "about".data, "into".data,
   "through".data, "there".data, "what".data, "which".data, "who".data,
   "when".data, "where".data, "why".data, "how".data,
   "that".data, "this".data, "these".data, "those".data, "between".data,
   "among".data, "relationship".data, "correlation".data,
   "effect".data, "impact".data, "influence".data, "association".data,
   "comparison".data]

/-- Pair each word token with the whitespace that follows it, from the
alternating run decomposition of a punctuation-cleaned text. -/
def pairTokens : List (Bool × Str) → List (Str × Str)
  | [] => []
  | (false, _) :: rest => pairTokens rest
  | (true, t) :: (false, s) :: rest => (t, s) :: pairTokens rest
  | (true, t) :: rest => (t, []) :: pairTokens rest

/-- A token consisting solely of letters, of length at least 2 (what
`[A-Z][a-z]+` accepts under `re.IGNORECASE`). -/
def alphaTok (t : Str) : Bool := t.all Char.isAlpha && decide (2 ≤ t.length)

/-- Greedy extension step of pattern 1 (`(?:\s+[A-Z][a-z]+)*`): absorb
following all-letter tokens into the current phrase. -/
def p1Chunk : Str → Str → List (Str × Str) → Str × List (Str × Str)
  | acc, _, [] => (acc, [])
  | acc, sep, (t, s) :: rest =>
    if alphaTok t then p1Chunk (acc ++ sep ++ t) s rest else (acc, (t, s) :: rest)

/-- `re.findall` of pattern 1, `\b([A-Z][a-z]+(?:\s+[A-Z][a-z]+)*)\b` with
`re.IGNORECASE`: maximal runs of consecutive all-letter tokens of length >= 2,
scanned left to right without overlap.  The fuel argument (the token count)
only serves totality; every step consumes at least one token. -/
def p1GoF : Nat → List (Str × Str) → List Str
  | 0, _ => []
  | _, [] => []
  | fuel + 1, (t, s) :: rest =>
    if alphaTok t then
      let (ph, rest') := p1Chunk t s rest
      ph :: p1GoF fuel rest'
    else p1GoF fuel rest

def p1Go (toks : List (Str × Str)) : List Str := p1GoF toks.length toks

/-- The alternation `(?:levels?|rates?|effects?|factors?|methods?|techniques?|approaches?)`
under `re.IGNORECASE` (note: `approaches?` matches "approache" or "approaches"). -/
def p2Keywords : List Str :=
  ["level".data, "levels".data, "rate".data, "rates".data,
   "effect".data, "effects".data, "factor".data, "factors".data,
   "method".data, "methods".data, "technique".data, "techniques".data,
   "approache".data, "approaches".data]

/-- `re.findall` of pattern 2, `\b(\w+\s+(?:levels?|...|approaches?))\b`:
a token followed by a keyword token, scanned without overlap. -/
def p2Go : List (Str × Str) → List Str
  | (t1, s1) :: (t2, s2) :: rest =>
    if lowerStr t2 ∈ p2Keywords then (t1 ++ s1 ++ t2) :: p2Go rest
    else p2Go ((t2, s2) :: rest)
  | _ => []

/-- `re.findall` of pattern 3, `\b(\w+\s+\w+(?:\s+\w+)?)\b`: greedy
non-overlapping chunks of three tokens (two when only two remain). -/
def p3Go : List (Str × Str) → List Str
  | (t1, s1) :: (t2, s2) :: (t3, _) :: rest => (t1 ++ s1 ++ t2 ++ s2 ++ t3) :: p3Go rest
  | [(t1, s1), (t2, _)] => [t1 ++ s1 ++ t2]
  | _ => []

/-- The filler phrases excluded in `extract_key_phrases` (line 701). -/
def badPhraseWords : List Str :=
  ["there is".data, "there are".data, "can be".data, "will be".data]

/-- `RobustAcademicSearcher.extract_key_phrases` (lines 677-707): clean
punctuation to spaces, run the three phrase patterns, strip and filter the
phrases, deduplicate preserving order, keep the first 8. -/
def extractKeyPhrases (text : Str) : List Str :=
  let textClean := text.map (fun c => if isWordChar c || isPySpace c then c else ' ')
  let toks := pairTokens (runs isWordChar textClean)
  let phrases := p1Go toks ++ p2Go toks ++ p3Go toks
  let filtered :=
    (phrases.filter (fun p =>
      decide (5 < (pyStrip p).length) &&
      !(badPhraseWords.any (fun w => decide (w <:+: lowerStr p))))).map pyStrip
  (dedupByGo (fun p => p) [] filtered).take 8

/-- `RobustAcademicSearcher.extract_search_terms_from_research_question`
(lines 619-675). -/
def extractSearchTermsFromResearchQuestion (rq : Str) : List Str :=
  if rq = [] ∨ pyStrip rq = [] then []
  else
    let rqClean := pyStrip (lowerStr rq)
    let words := wordTokens rqClean
    let meaningful := words.filter
      (fun w => decide (2 < w.length) && !(rqStopWords.contains (lowerStr w)))
    let keyPhrases := extractKeyPhrases rq
    let searchTerms := keyPhrases ++ meaningful.take 10
    (dedupByGo lowerStr [] searchTerms).take 15

/-- `[i:i+5]` chunking of `create_keyword_combinations` (lines 727-732). -/
def chunksOfFive : List Str → List (List Str)
  | [] => []
  | a :: b :: c :: d :: e :: rest => [a, b, c, d, e] :: chunksOfFive rest
  | l => [l]

/-- `RobustAcademicSearcher.create_keyword_combinations` (lines 709-734). -/
def createKeywordCombinations (keywords : List Str) : List (List Str) :=
  if keywords = [] then []
  else
    (([keywords]
      ++ (if 5 < keywords.length then [keywords.take 5] else [])
      ++ (if 3 < keywords.length then [keywords.take 3] else [])
      ++ (chunksOfFive keywords).filter (fun c => decide (2 ≤ c.length))).take 4)

/-- One prioritized search term set (the dicts built by
`prepare_search_terms`; lower priority value is tried first). -/
structure TermSet where
  terms : List Str
  setType : Str
  priority : Nat
  description : Str
deriving DecidableEq

/-- The priority-1 research-question term set of `prepare_search_terms`
(lines 580-589), present only when the research question is truthy and term
extraction yields something. -/
def rqTermSets (researchQuestion : Option Str) : List TermSet :=
  match researchQuestion with
  | some s =>
    if s ≠ [] ∧ pyStrip s ≠ [] then
      let rqTerms := extractSearchTermsFromResearchQuestion s
      if rqTerms ≠ [] then
        [{ terms := rqTerms, setType := "research_question".data, priority := 1,
           description := "Research question based terms".data }]
      else []
    else []
  | none => []

/-- `for i, combo in enumerate(keyword_combinations)` with priorities `2 + i`
(lines 598-604). -/
def keywordSetsGo (i : Nat) : List (List Str) → List TermSet
  | [] => []
  | combo :: rest =>
    { terms := combo, setType := "keywords".data, priority := 2 + i,
      description := "Keyword combination ".data ++ Nat.toDigits 10 (i + 1) } ::
      keywordSetsGo (i + 1) rest

/-- The keyword-combination term sets of `prepare_search_terms`
(lines 591-604). -/
def keywordTermSets (keywords : List Str) : List TermSet :=
  if keywords ≠ [] then
    let clean := (keywords.map pyStrip).filter (fun k => k ≠ [])
    if clean ≠ [] then keywordSetsGo 0 (createKeywordCombinations clean)
    else []
  else []

/-- The priority-10 fallback term set (lines 606-615). -/
def fallbackTermSet : TermSet :=
  { terms := ["research".data, "study".data, "analysis".data],
    setType := "fallback".data, priority := 10,
    description := "Basic fallback terms".data }

/-- `RobustAcademicSearcher.prepare_search_terms` (lines 573-617). -/
def prepareSearchTerms (keywords : List Str) (researchQuestion : Option Str) :
    List TermSet :=
  let sets := rqTermSets researchQuestion ++ keywordTermSets keywords
  if sets = [] then [fallbackTermSet] else sets

/-! ### Source adapter boundary and fallback orchestrator -/

/-- `RobustAcademicSearcher.search_google_scholar_robust` (lines 336-395).
Each internal technique (direct Scholar request + parse, DuckDuckGo-mediated
Scholar search, academic-terms web search) is abstracted as an
`Except`-valued outcome: `.error` models an exception caught by the
technique's own `try`, `.ok articles` its parsed results.  The first
technique with a non-empty result wins and names itself in the method tag;
exhaustion returns `([], "failed")`. -/
def searchGoogleScholarRobust (strat1 strat2 strat3 : Except Str (List RawArticle)) :
    List RawArticle × Str :=
  match strat1 with
  | .ok (a :: rest) => (a :: rest, "direct_scholar".data)
  | _ =>
    match strat2 with
    | .ok (a :: rest) => (a :: rest, "duckduckgo_scholar".data)
    | _ =>
      match strat3 with
      | .ok (a :: rest) => (a :: rest, "academic_terms".data)
      | _ => ([], "failed".data)

/-- `RobustAcademicSearcher.search_single_source_with_terms` (lines 261-299).
The per-source dispatch (the `if source == ...` ladder calling one adapter)
is abstracted as `dispatch`; a `.error` outcome models an exception raised
by the adapter, which the surrounding `try`/`except` converts to
`([], "error")`.  Empty term lists short-circuit to `([], "no_terms")`. -/
def searchSingleSourceWithTerms (dispatch : Str → List Str → Except Str (List RawArticle × Str))
    (searchTerms : List Str) (source : Str) : List RawArticle × Str :=
  if searchTerms = [] then ([], "no_terms".data)
  else
    match dispatch source searchTerms with
    | .error _ => ([], "error".data)
    | .ok r => r

/-- Attach `source`, `search_method` and `keywords_used` to an article
(lines 143-146). -/
def tagArticle (source method keywordsUsed : Str) (a : RawArticle) : TaggedArticle :=
  { toRawArticle := a, source := source, searchMethod := method,
    keywordsUsed := keywordsUsed }

/-- `', '.join(best_search_terms) if best_search_terms else ''` (line 146). -/
def joinComma : Option (List Str) → Str
  | none => []
  | some [] => []
  | some (t :: rest) => t ++ (rest.map (fun u => ", ".data ++ u)).flatten

/-- The inner term-set loop of `search_all_sources` for one source
(lines 117-141).  State is `(articles, method_used, best_search_terms)`;
a term set yielding no articles is skipped, a non-empty yield extends the
state, and a research-question term set yielding at least
`max_results_per_source // 3` articles breaks the loop. -/
def trySets (sourceSearch : Str → List Str → List RawArticle × Str)
    (cap : Nat) (source : Str) :
    List RawArticle × Str × Option (List Str) → List TermSet →
    List RawArticle × Str × Option (List Str)
  | st, [] => st
  | (arts, method, best), ts :: rest =>
    let r := sourceSearch source ts.terms
    if r.1 = [] then trySets sourceSearch cap source (arts, method, best) rest
    else
      let st' := (arts ++ r.1, r.2 ++ '_' :: ts.setType, some ts.terms)
      if ts.setType = "research_question".data ∧ cap / 3 ≤ r.1.length then st'
      else trySets sourceSearch cap source st' rest

/-- Python truthiness of the optional research question string. -/
def rqTruthy : Option Str → Bool
  | none => false
  | some s => s != []

/-- The body of the `for source in sources` loop of `search_all_sources`
(lines 108-161): run the term-set fallback chain for one source, tag and
accumulate its articles, and record the source in the success or failure
statistics. -/
def sourceStep (sourceSearch : Str → List Str → List RawArticle × Str)
    (cap : Nat) (termSets : List TermSet)
    (acc : List TaggedArticle × List Str × List Str) (source : Str) :
    List TaggedArticle × List Str × List Str :=
  let (allArts, succ, fail) := acc
  let (articles, methodUsed, bestTerms) :=
    trySets sourceSearch cap source ([], "none".data, none) termSets
  let tagged := articles.map (tagArticle source methodUsed (joinComma bestTerms))
  if articles ≠ [] then
    (allArts ++ tagged, succ ++ [source ++ ':' :: methodUsed], fail)
  else
    (allArts ++ tagged, succ, fail ++ [source ++ ':' :: methodUsed])

/-- `RobustAcademicSearcher.search_all_sources` (lines 86-189), returning the
final corpus together with the `successful_methods` and `failed_methods`
statistics entries (strings `f"{source}:{method_used}"`) accumulated by the
run.  `sourceSearch` abstracts `search_single_source_with_terms`. -/
def searchAllSources (sourceSearch : Str → List Str → List RawArticle × Str)
    (cap : Nat) (keywords : List Str) (sources : List Str)
    (researchQuestion : Option Str) :
    List CorpusRow × List Str × List Str :=
  if keywords = [] ∧ ¬ rqTruthy researchQuestion then ([], [], [])
  else
    let termSets := prepareSearchTerms keywords researchQuestion
    let (allArts, succ, fail) :=
      sources.foldl (sourceStep sourceSearch cap termSets) ([], [], [])
    (if allArts ≠ [] then processResults allArts else [], succ, fail)

/-- `RobustAcademicSearcher.get_statistics` (lines 1699-1705): the two method
lists and the derived success rate. -/
def getStatistics (succ fail : List Str) : List Str × List Str × ℚ :=
  (succ, fail, (succ.length : ℚ) / max 1 ((succ.length : ℚ) + (fail.length : ℚ)))

/-! ### Artifact matcher (`analysis.py`, `try_match_pdf_to_article` and its
caller's scan loop) -/

/-- An artifact: a file known only by its name (`pdf_path.name`). -/
structure PdfFile where
  name : Str
deriving DecidableEq

/-- `pathlib.PurePath.stem`: the name without its final suffix; a suffix
exists when the last dot sits strictly inside the name. -/
def pathStem (name : Str) : Str :=
  match ((name.enum.filter (fun p => p.2 == '.')).map (fun p => p.1)).getLast? with
  | some i => if 0 < i ∧ i < name.length - 1 then name.take i else name
  | none => name

/-- `re.match(r'^(\d+)_', name)` followed by `int(...)` on the digit group:
the maximal leading digit run, provided it is non-empty and immediately
followed by an underscore. -/
def parsePdfNumber (name : Str) : Option Nat :=
  let digits := name.takeWhile Char.isDigit
  if digits ≠ [] ∧ (name.drop digits.length).head? = some '_' then
    some (digits.foldl (fun n c => 10 * n + (c.toNat - '0'.toNat)) 0)
  else none

/-- A row of the screened-articles table as the matcher reads it:
`get_safe_article_id` (with the id column present), `title`, `authors`,
`year` as strings (analysis.py lines 197-200). -/
structure ScreenedArticle where
  aid : Str
  title : Str
  authors : Str
  year : Str
deriving DecidableEq

/-- The matching strategy that produced a candidate, carrying the data the
code interpolates into its `match_type` string. -/
inductive Strategy where
  | pdfNumber (n : Nat)
  | articleId
  | firstWords (m k : Nat)
  | anyWords (m k : Nat)
  | authorYear (lastname year : Str)
deriving DecidableEq

/-- One entry of the `matches` list: the 0-based record position, the
strategy tag, and the confidence score. -/
structure MatchCand where
  idx : Nat
  tag : Strategy
  conf : ℚ
deriving DecidableEq

/-- Stop words of strategy 3.5 (analysis.py line 243). -/
def matcherStopWords : List Str :=
  ["the".data, "and".data, "or".data, "but".data, "in".data, "on".data,
   "at".data, "to".data, "for".data, "of".data, "with".data, "by".data,
   "from".data, "up".data, "about".data, "into".data, "through".data,
   "during".data, "before".data, "after".data, "above".data, "below".data,
   "between".data, "among".data, "under".data, "within".data, "without".data,
   "against".data, "toward".data, "upon".data, "concerning".data, "per".data,
   "an".data, "a".data, "is".data, "are".data, "was".data, "were".data,
   "be".data, "been".data, "being".data, "have".data, "has".data, "had".data,
   "do".data, "does".data, "did".data, "will".data, "would".data,
   "could".data, "should".data, "may".data, "might".data, "can".data]

/-- The first five words of the (lowercased) title that are longer than two
characters (analysis.py lines 227-228). -/
def firstFiveWords (title : Str) : List Str :=
  (((pySplit title).take 5).filter (fun w => decide (2 < w.length))).map lowerStr

/-- All title words longer than two characters that are not stop words
(analysis.py line 244). -/
def significantWords (title : Str) : List Str :=
  (pySplit title).filter
    (fun w => decide (2 < w.length) && !(matcherStopWords.contains w))

/-- How many of the given words occur as substrings of the filename stem
(`sum(1 for word in title_words if word in pdf_stem)`). -/
def countMatches (ws : List Str) (stem : Str) : Nat :=
  ws.countP (fun w => decide (w <:+: stem))

/-- Strategy 2.5 (analysis.py lines 217-222): a 20-point bonus when
`'search'` occurs in both the filename stem and the title. -/
def searchBonusFor (pdfStem title : Str) : ℚ :=
  if "search".data <:+: pdfStem ∧ "search".data <:+: title then 20 else 0

/-- Strategy 3, leading-title-words match (analysis.py lines 224-238). -/
def strat3 (pdfStem title : Str) (idx : Nat) : Option MatchCand :=
  if title ≠ [] ∧ 5 < title.length then
    let titleWords := firstFiveWords title
    if 1 ≤ titleWords.length then
      let m := countMatches titleWords pdfStem
      if 1 ≤ m then
        some ⟨idx, Strategy.firstWords m titleWords.length,
          min 95 ((40 + (m : ℚ) * 15) + searchBonusFor pdfStem title)⟩
      else none
    else none
  else none

/-- Strategy 3.5, any-significant-word match (analysis.py lines 240-253). -/
def strat35 (pdfStem title : Str) (idx : Nat) : Option MatchCand :=
  if title ≠ [] ∧ 10 < title.length then
    let titleWords := significantWords title
    if 1 ≤ titleWords.length then
      let m := countMatches titleWords pdfStem
      if 1 ≤ m then
        some ⟨idx, Strategy.anyWords m titleWords.length,
          min 85 (30 + ((m : ℚ) / (titleWords.length : ℚ)) * 30
            + (m : ℚ) * 5 + searchBonusFor pdfStem title)⟩
      else none
    else none
  else none

/-- Strategy 4, author-surname + year match (analysis.py lines 255-263). -/
def strat4 (pdfStem authors year : Str) (idx : Nat) : Option MatchCand :=
  if authors ≠ [] ∧ year ≠ [] then
    let firstAuthor := pyStrip (splitFirst ';' (splitFirst ',' authors))
    if firstAuthor ≠ [] ∧ 2 < firstAuthor.length then
      let lastname :=
        if ' ' ∈ firstAuthor then (pySplit firstAuthor).getLastD []
        else firstAuthor
      if 3 < lastname.length ∧ lowerStr lastname <:+: pdfStem ∧
          year <:+: pdfStem then
        some ⟨idx, Strategy.authorYear lastname year, 80⟩
      else none
    else none
  else none

/-- The body of the per-article loop of `try_match_pdf_to_article`
(analysis.py lines 196-263): the candidates contributed for the record at
0-based position `idx`.  Strategies 1 and 2 `continue` past the rest;
strategies 3, 3.5 and 4 can each contribute one candidate. -/
def candidatesFor (pdf : PdfFile) (idx : Nat) (article : ScreenedArticle) :
    List MatchCand :=
  let pdfName := lowerStr pdf.name
  let pdfStem := lowerStr (pathStem pdf.name)
  let title := lowerStr article.title
  let authors := lowerStr article.authors
  let seq : Option Nat :=
    match parsePdfNumber pdf.name with
    | some n => if n = idx + 1 then some n else none
    | none => none
  match seq with
  | some n => [⟨idx, Strategy.pdfNumber n, 98⟩]
  | none =>
    if lowerStr article.aid <:+: pdfName then [⟨idx, Strategy.articleId, 95⟩]
    else
      (strat3 pdfStem title idx).toList ++ (strat35 pdfStem title idx).toList ++
        (strat4 pdfStem authors article.year idx).toList

/-- `for idx, (_, article) in enumerate(articles.iterrows())`: accumulate the
candidates of every record, positions counted from `idx`. -/
def matchesGo (pdf : PdfFile) (idx : Nat) : List ScreenedArticle → List MatchCand
  | [] => []
  | a :: rest => candidatesFor pdf idx a ++ matchesGo pdf (idx + 1) rest

/-- The full `matches` list of `try_match_pdf_to_article`. -/
def matchesFor (pdf : PdfFile) (articles : List ScreenedArticle) : List MatchCand :=
  matchesGo pdf 0 articles

/-- One comparison step of Python's `max(..., key=f)`: the current best is
replaced only on strict improvement, so ties keep the earlier element. -/
def maxStep (f : α → ℚ) (c b : α) : α := if f c < f b then b else c

/-- Python `max(l, key=f)`: the first element attaining the maximal key. -/
def pyMax (f : α → ℚ) : List α → Option α
  | [] => none
  | a :: rest => some (rest.foldl (maxStep f) a)

/-- `try_match_pdf_to_article` (analysis.py lines 189-268): collect all
candidates and return the best match by confidence, `none` when there is no
candidate at all. -/
def tryMatchPdfToArticle (pdf : PdfFile) (articles : List ScreenedArticle) :
    Option MatchCand :=
  pyMax (fun c => c.conf) (matchesFor pdf articles)

/-- Why a PDF was routed to manual review by the scan loop (the shapes of
the `match_type` field of `unmatched_pdfs` entries). -/
inductive ReviewTag where
  | duplicateAssignment (s : Strategy)
  | lowConfidence (s : Strategy)
  | noMatch
deriving DecidableEq

/-- One `unmatched_pdfs` entry (analysis.py lines 286-291, 327-332, 335-340). -/
structure ReviewEntry where
  pdf : Str
  potentialIdx : Option Nat
  tag : ReviewTag
  confidence : ℚ
deriving DecidableEq

/-- The mutable state of the scan loop over `existing_pdfs`
(analysis.py lines 271-340): the `assigned_articles` title set, the
record-to-PDF assignments written into the articles table, the manual-review
list, and `updated_count`. -/
structure ScanState where
  assignedTitles : List Str
  assignments : List (Nat × Str)
  review : List ReviewEntry
  updatedCount : Nat
deriving DecidableEq

def initScanState : ScanState := ⟨[], [], [], 0⟩

/-- Title lookup for a candidate's record position. -/
def titleAt (articles : List ScreenedArticle) (idx : Nat) : Str :=
  (articles.getD idx ⟨[], [], [], []⟩).title

/-- One iteration of the scan loop (analysis.py lines 273-340) on a fresh
run (all rows start as `'Awaiting'` with empty `pdf_path`, as after the
reset button): no match reports `no_match`; a best match on an
already-assigned title is reported as a `duplicate_assignment` conflict;
a match with confidence at least 40 is auto-assigned; anything lower goes
to manual review. -/
def scanStep (articles : List ScreenedArticle) (st : ScanState) (pdf : PdfFile) :
    ScanState :=
  match tryMatchPdfToArticle pdf articles with
  | none =>
    { st with review := st.review ++ [⟨pdf.name, none, ReviewTag.noMatch, 0⟩] }
  | some c =>
    let articleTitle := titleAt articles c.idx
    if articleTitle ∈ st.assignedTitles then
      { st with review :=
          st.review ++ [⟨pdf.name, some c.idx, ReviewTag.duplicateAssignment c.tag, c.conf⟩] }
    else if 40 ≤ c.conf then
      { st with
          assignments := st.assignments ++ [(c.idx, pdf.name)]
          assignedTitles := st.assignedTitles ++ [articleTitle]
          updatedCount := st.updatedCount + 1 }
    else
      { st with review :=
          st.review ++ [⟨pdf.name, some c.idx, ReviewTag.lowConfidence c.tag, c.conf⟩] }

/-- The whole scan pass over the uploads directory. -/
def scanPdfs (articles : List ScreenedArticle) (pdfs : List PdfFile) : ScanState :=
  pdfs.foldl (scanStep articles) initScanState

/-! ### Lemmas about deduplication and id assignment -/

theorem dedupByGo_sublist (key : α → Str) (seen : List Str) (l : List α) :
    List.Sublist (dedupByGo key seen l) l := by
  induction l generalizing seen with
  | nil => simp [dedupByGo]
  | cons a rest ih =>
    simp only [dedupByGo]
    split
    · exact (ih seen).cons a
    · exact (ih (key a :: seen)).cons₂ a

theorem dedupByGo_keys (key : α → Str) (seen : List Str) (l : List α) :
    ((dedupByGo key seen l).map key).Nodup ∧
      ∀ b ∈ (dedupByGo key seen l).map key, b ∉ seen := by
  induction l generalizing seen with
  | nil => simp [dedupByGo]
  | cons a rest ih =>
    simp only [dedupByGo]
    split
    · exact ih seen
    · rename_i hna
      obtain ⟨ih1, ih2⟩ := ih (key a :: seen)
      refine ⟨?_, ?_⟩
      · simp only [List.map_cons, List.nodup_cons]
        refine ⟨fun hmem => ?_, ih1⟩
        exact (ih2 _ hmem) (List.mem_cons_self _ _)
      · intro b hb
        simp only [List.map_cons, List.mem_cons] at hb
        rcases hb with hb | hb
        · simpa [hb] using hna
        · exact fun hseen => (ih2 b hb) (List.mem_cons_of_mem _ hseen)

theorem removeDuplicates_titles_nodup (rows : List (Nat × TaggedArticle)) :
    ((removeDuplicates rows).map (fun r => r.2.title)).Nodup :=
  (dedupByGo_keys _ [] rows).1

theorem withIds_fst_lt (l : List TaggedArticle) :
    ∀ n, ∀ p ∈ withIds n l, n ≤ p.1 := by
  induction l with
  | nil => intro n p hp; simp [withIds] at hp
  | cons a rest ih =>
    intro n p hp
    simp only [withIds, List.mem_cons] at hp
    rcases hp with rfl | hp
    · exact le_refl n
    · exact (Nat.le_succ n).trans (ih (n + 1) p hp)

theorem withIds_pairwise (l : List TaggedArticle) :
    ∀ n, (withIds n l).Pairwise (fun p q => p.1 < q.1) := by
  induction l with
  | nil => intro n; simp [withIds]
  | cons a rest ih =>
    intro n
    simp only [withIds, List.pairwise_cons]
    exact ⟨fun q hq => Nat.lt_of_lt_of_le (Nat.lt_succ_self n) (withIds_fst_lt rest (n + 1) q hq),
      ih (n + 1)⟩

theorem processResults_ids_pairwise (arts : List TaggedArticle) :
    ((processResults arts).map (fun r => r.id)).Pairwise (· < ·) := by
  have h1 : (removeDuplicates (withIds 1 arts)).Pairwise (fun p q => p.1 < q.1) :=
    (withIds_pairwise arts 1).sublist (dedupByGo_sublist _ [] _)
  have h2 : ((processResults arts).map (fun r => r.id)) =
      (removeDuplicates (withIds 1 arts)).map (fun p => p.1) := by
    simp [processResults, cleanArticleData, cleanRow, List.map_map, Function.comp]
  rw [h2, List.pairwise_map]
  exact h1

theorem processResults_head_id (a : TaggedArticle) (rest : List TaggedArticle) :
    ((processResults (a :: rest)).map (fun r => r.id)).head? = some 1 := by
  simp [processResults, withIds, removeDuplicates, dedupByGo, cleanArticleData, cleanRow]

/-! ### The deduplication scenario of the spec (two records whose titles
differ only in casing/whitespace, one source, keywords
`["heart failure", "exercise"]`, no research question) -/

def scenarioArticleA : RawArticle :=
  { title := "Exercise and Heart Failure Outcomes".data,
    authors := some "Smith J".data, abstract := some "About exercise".data,
    url := some "http://a".data, year := some 2020 }

def scenarioArticleB : RawArticle :=
  { title := "exercise and  heart failure outcomes".data,
    authors := some "Jones K".data, abstract := some "About exercise too".data,
    url := some "http://b".data, year := some 2021 }

/-- A source adapter that returns the same two records (titles differing only
in casing and internal whitespace) for every query. -/
def scenarioAdapter : Str → List Str → List RawArticle × Str :=
  fun _ _ => ([scenarioArticleA, scenarioArticleB], "api".data)

def scenarioKeywords : List Str := ["heart failure".data, "exercise".data]

def scenarioRun : List CorpusRow × List Str × List Str :=
  searchAllSources scenarioAdapter 100 scenarioKeywords ["PubMed API".data] none

/-! ### Claim C1 and C2 theorems -/

/-- C1, counterexample.  The spec claims the Corpus of the scenario has
exactly one record and that no two corpus records have titles equal under
case/whitespace normalization.  The code deduplicates on raw exact title
equality before whitespace cleaning, so the scenario corpus has two records
-- whose cleaned titles moreover come out normalized-equal (here the
whitespace variant; the casing variant stays distinct as well). -/
theorem dedup_scenario_keeps_normalized_duplicates :
    scenarioRun.1.length ≠ 1 ∧
      scenarioRun.1.map (fun r => lowerStr r.title) =
        ["exercise and heart failure outcomes".data,
         "exercise and heart failure outcomes".data] := by
  constructor
  · decide
  · decide

/-- C1, amended.  Deduplication compares raw titles for exact equality
(`drop_duplicates(subset=['title'])`) before any cleaning: the deduplicated
rows have pairwise-distinct raw titles, but records whose titles differ only
in casing or internal whitespace all survive, so the spec scenario yields a
corpus of exactly two records, not one. -/
theorem dedup_removes_only_exact_title_duplicates :
    (∀ rows : List (Nat × TaggedArticle),
        ((removeDuplicates rows).map (fun r => r.2.title)).Nodup) ∧
      scenarioRun.1.length = 2 := by
  exact ⟨removeDuplicates_titles_nodup, by decide⟩

/-- Three tagged articles of which the first two share one exact title:
the deduplicated corpus keeps ids 1 and 3. -/
def gapArticles : List TaggedArticle :=
  [{ title := "Same Title Here".data, authors := none, abstract := none,
     url := none, year := none, source := "S".data, searchMethod := "m".data,
     keywordsUsed := [] },
   { title := "Same Title Here".data, authors := none, abstract := none,
     url := none, year := none, source := "S".data, searchMethod := "m".data,
     keywordsUsed := [] },
   { title := "Another Title".data, authors := none, abstract := none,
     url := none, year := none, source := "S".data, searchMethod := "m".data,
     keywordsUsed := [] }]

/-- C2, counterexample.  The spec claims corpus ids are dense consecutive
integers starting at 1 assigned only after deduplication; the code assigns
ids before `remove_duplicates`, so dropping a duplicate leaves a gap: for
three aggregated records whose first two share a title, the surviving ids
are `[1, 3]`, not `[1, 2]`. -/
theorem ids_assigned_before_dedup_leave_gaps :
    (processResults gapArticles).map (fun r => r.id) = [1, 3] ∧
      (processResults gapArticles).map (fun r => r.id) ≠ [1, 2] := by
  constructor
  · decide
  · decide

/-- C2, amended.  Ids are assigned consecutively starting at 1 in aggregation
order before deduplication; the surviving records keep their original ids,
which are therefore strictly increasing (hence never reused within the run)
and begin at 1 whenever any record was aggregated, but are not necessarily
dense. -/
theorem corpus_ids_strictly_increasing_from_one (arts : List TaggedArticle) :
    ((processResults arts).map (fun r => r.id)).Pairwise (· < ·) ∧
      (arts ≠ [] → ((processResults arts).map (fun r => r.id)).head? = some 1) := by
  refine ⟨processResults_ids_pairwise arts, fun h => ?_⟩
  match arts, h with
  | a :: rest, _ => exact processResults_head_id a rest

/-- Witness for `corpus_ids_strictly_increasing_from_one` at the concrete
three-record input. -/
theorem corpus_ids_strictly_increasing_from_one_witness :
    gapArticles ≠ [] ∧
      ((processResults gapArticles).map (fun r => r.id)).head? = some 1 :=
  ⟨by decide, (corpus_ids_strictly_increasing_from_one gapArticles).2 (by decide)⟩

/-! ### Lemmas about Python `max` -/

theorem foldlMax_le (f : α → ℚ) (l : List α) (a : α) :
    f a ≤ f (l.foldl (maxStep f) a) ∧ ∀ x ∈ l, f x ≤ f (l.foldl (maxStep f) a) := by
  induction l generalizing a with
  | nil => simp
  | cons b t ih =>
    simp only [List.foldl_cons, List.mem_cons]
    by_cases h : f a < f b
    · have hb := ih b
      rw [maxStep, if_pos h]
      exact ⟨(le_of_lt h).trans hb.1,
        fun x hx => hx.elim (fun hxb => hxb ▸ hb.1) (fun hxt => hb.2 x hxt)⟩
    · have ha := ih a
      rw [maxStep, if_neg h]
      exact ⟨ha.1,
        fun x hx => hx.elim (fun hxb => hxb ▸ ((not_lt.mp h).trans ha.1))
          (fun hxt => ha.2 x hxt)⟩

theorem foldlMax_decomp (f : α → ℚ) (l : List α) (a : α) :
    ∃ m1 m2, a :: l = m1 ++ (l.foldl (maxStep f) a) :: m2 ∧
      (∀ x ∈ m1, f x < f (l.foldl (maxStep f) a)) ∧
      (∀ x ∈ m2, f x ≤ f (l.foldl (maxStep f) a)) := by
  induction l generalizing a with
  | nil => exact ⟨[], [], by simp, by simp, by simp⟩
  | cons b t ih =>
    simp only [List.foldl_cons]
    by_cases h : f a < f b
    · rw [maxStep, if_pos h]
      obtain ⟨m1, m2, heq, h1, h2⟩ := ih b
      refine ⟨a :: m1, m2, by simp [heq], ?_, h2⟩
      intro x hx
      rcases List.mem_cons.mp hx with rfl | hx
      · exact lt_of_lt_of_le h (foldlMax_le f t b).1
      · exact h1 x hx
    · rw [maxStep, if_neg h]
      obtain ⟨m1, m2, heq, h1, h2⟩ := ih a
      cases m1 with
      | nil =>
        simp only [List.nil_append, List.cons.injEq] at heq
        obtain ⟨heq1, heq2⟩ := heq
        refine ⟨[], b :: t, by simp [← heq1], by simp, ?_⟩
        intro x hx
        rcases List.mem_cons.mp hx with rfl | hx
        · exact heq1 ▸ not_lt.mp h
        · exact h2 x (heq2 ▸ hx)
      | cons a' m1' =>
        simp only [List.cons_append, List.cons.injEq] at heq
        obtain ⟨ha', ht⟩ := heq
        have hfa' : f a < f (t.foldl (maxStep f) a) :=
          ha' ▸ h1 a' (List.mem_cons_self a' m1')
        refine ⟨a :: b :: m1', m2, ?_, ?_, h2⟩
        · simpa using congrArg (fun l => a :: b :: l) ht
        · intro x hx
          rcases List.mem_cons.mp hx with rfl | hx
          · exact hfa'
          rcases List.mem_cons.mp hx with rfl | hx
          · exact lt_of_le_of_lt (not_lt.mp h) hfa'
          · exact h1 x (List.mem_cons_of_mem a' hx)

theorem pyMax_spec (f : α → ℚ) (l : List α) (r : α) (h : pyMax f l = some r) :
    ∃ m1 m2, l = m1 ++ r :: m2 ∧ (∀ x ∈ m1, f x < f r) ∧ (∀ x ∈ m2, f x ≤ f r) := by
  match l, h with
  | a :: rest, h =>
    simp only [pyMax, Option.some.injEq] at h
    subst h
    exact foldlMax_decomp f rest a

theorem pyMax_mem (f : α → ℚ) (l : List α) (r : α) (h : pyMax f l = some r) :
    r ∈ l := by
  obtain ⟨m1, m2, heq, -, -⟩ := pyMax_spec f l r h
  rw [heq]
  exact List.mem_append.mpr (Or.inr (List.mem_cons_self _ _))

theorem pyMax_ge (f : α → ℚ) (l : List α) (r : α) (h : pyMax f l = some r) :
    ∀ x ∈ l, f x ≤ f r := by
  obtain ⟨m1, m2, heq, h1, h2⟩ := pyMax_spec f l r h
  intro x hx
  rw [heq] at hx
  rcases List.mem_append.mp hx with hx | hx
  · exact le_of_lt (h1 x hx)
  · rcases List.mem_cons.mp hx with rfl | hx
    · exact le_refl _
    · exact h2 x hx

theorem pyMax_eq_of_unique_max (f : α → ℚ) (l : List α) (c : α) (hc : c ∈ l)
    (hmax : ∀ x ∈ l, x ≠ c → f x < f c) : pyMax f l = some c := by
  match l, hc with
  | a :: rest, hc =>
    have hr : pyMax f (a :: rest) = some (rest.foldl (maxStep f) a) := rfl
    set r := rest.foldl (maxStep f) a with hrdef
    by_cases hrc : r = c
    · rw [hr, hrc]
    · have hmem : r ∈ a :: rest := pyMax_mem f _ r hr
      have h1 : f r < f c := hmax r hmem hrc
      have h2 : f c ≤ f r := pyMax_ge f _ r hr c hc
      exact absurd h2 (not_le.mpr h1)

/-! ### Lemmas about the matching strategies -/

theorem strat3_spec (pdfStem title : Str) (idx : Nat) (c : MatchCand)
    (h : strat3 pdfStem title idx = some c) :
    c = ⟨idx,
      Strategy.firstWords (countMatches (firstFiveWords title) pdfStem)
        (firstFiveWords title).length,
      min 95 ((40 + (countMatches (firstFiveWords title) pdfStem : ℚ) * 15)
        + searchBonusFor pdfStem title)⟩ := by
  simp only [strat3] at h
  split at h
  · split at h
    · split at h
      · simp only [Option.some.injEq] at h
        exact h.symm
      · exact absurd h (by simp)
    · exact absurd h (by simp)
  · exact absurd h (by simp)

theorem strat35_spec (pdfStem title : Str) (idx : Nat) (c : MatchCand)
    (h : strat35 pdfStem title idx = some c) :
    c = ⟨idx,
      Strategy.anyWords (countMatches (significantWords title) pdfStem)
        (significantWords title).length,
      min 85 (30 + ((countMatches (significantWords title) pdfStem : ℚ)
          / ((significantWords title).length : ℚ)) * 30
        + (countMatches (significantWords title) pdfStem : ℚ) * 5
        + searchBonusFor pdfStem title)⟩ := by
  simp only [strat35] at h
  split at h
  · split at h
    · split at h
      · simp only [Option.some.injEq] at h
        exact h.symm
      · exact absurd h (by simp)
    · exact absurd h (by simp)
  · exact absurd h (by simp)

theorem strat4_spec (pdfStem authors year : Str) (idx : Nat) (c : MatchCand)
    (h : strat4 pdfStem authors year idx = some c) :
    ∃ l y, c = ⟨idx, Strategy.authorYear l y, 80⟩ := by
  simp only [strat4] at h
  repeat' split at h
  all_goals first
    | (simp only [Option.some.injEq] at h; exact ⟨_, _, h.symm⟩)
    | exact absurd h (by simp)

/-- The candidates contributed by strategies 3, 3.5, 4 all carry `idx` and
stay at or below confidence 95. -/
theorem stratCands_spec (st ti au yr : Str) (idx : Nat) (c : MatchCand)
    (hc : c ∈ (strat3 st ti idx).toList ++ (strat35 st ti idx).toList ++
      (strat4 st au yr idx).toList) :
    c.idx = idx ∧ c.conf ≤ 95 := by
  simp only [List.mem_append, Option.mem_toList, Option.mem_def] at hc
  rcases hc with (hc | hc) | hc
  · have := strat3_spec _ _ _ _ hc
    subst this
    exact ⟨rfl, min_le_left _ _⟩
  · have := strat35_spec _ _ _ _ hc
    subst this
    exact ⟨rfl, (min_le_left _ _).trans (by norm_num)⟩
  · obtain ⟨l, y, rfl⟩ := strat4_spec _ _ _ _ _ hc
    exact ⟨rfl, by norm_num⟩

/-- Any candidate for position `idx` carries `idx`, and it is either the
sequential-position candidate (pdf number = idx + 1, confidence 98) or has
confidence at most 95. -/
theorem candidatesFor_mem_spec (pdf : PdfFile) (idx : Nat) (a : ScreenedArticle)
    (c : MatchCand) (hc : c ∈ candidatesFor pdf idx a) :
    c.idx = idx ∧
      ((∃ n, parsePdfNumber pdf.name = some n ∧ n = idx + 1 ∧
          c = ⟨idx, Strategy.pdfNumber n, 98⟩) ∨ c.conf ≤ 95) := by
  simp only [candidatesFor] at hc
  rcases hpn : parsePdfNumber pdf.name with - | n
  · rw [hpn] at hc
    dsimp only at hc
    split at hc
    · simp only [List.mem_singleton] at hc
      subst hc
      exact ⟨rfl, Or.inr (le_refl _)⟩
    · exact (stratCands_spec _ _ _ _ _ _ hc).imp_right Or.inr
  · rw [hpn] at hc
    dsimp only at hc
    by_cases hn : n = idx + 1
    · rw [if_pos hn] at hc
      dsimp only at hc
      simp only [List.mem_singleton] at hc
      subst hc
      exact ⟨rfl, Or.inl ⟨n, rfl, hn, by rw [hn]⟩⟩
    · rw [if_neg hn] at hc
      dsimp only at hc
      split at hc
      · simp only [List.mem_singleton] at hc
        subst hc
        exact ⟨rfl, Or.inr (le_refl _)⟩
      · exact (stratCands_spec _ _ _ _ _ _ hc).imp_right Or.inr

/-- When the pdf number equals `idx + 1`, the record at `idx` contributes
exactly the confidence-98 sequential-position candidate. -/
theorem candidatesFor_seq (pdf : PdfFile) (idx : Nat) (a : ScreenedArticle)
    (n : Nat) (hpn : parsePdfNumber pdf.name = some n) (hn : n = idx + 1) :
    candidatesFor pdf idx a = [⟨idx, Strategy.pdfNumber n, 98⟩] := by
  subst hn
  simp [candidatesFor, hpn]

theorem matchesGo_mem_exists (pdf : PdfFile) :
    ∀ (l : List ScreenedArticle) (i : Nat) (c : MatchCand),
      c ∈ matchesGo pdf i l → ∃ idx a, i ≤ idx ∧ c ∈ candidatesFor pdf idx a := by
  intro l
  induction l with
  | nil => intro i c hc; simp [matchesGo] at hc
  | cons a rest ih =>
    intro i c hc
    rcases List.mem_append.mp hc with hc | hc
    · exact ⟨i, a, le_refl i, hc⟩
    · obtain ⟨idx, b, hle, hmem⟩ := ih (i + 1) c hc
      exact ⟨idx, b, (Nat.le_succ i).trans hle, hmem⟩

theorem matchesGo_idx_ge (pdf : PdfFile) (l : List ScreenedArticle) (i : Nat)
    (c : MatchCand) (hc : c ∈ matchesGo pdf i l) : i ≤ c.idx := by
  obtain ⟨idx, a, hle, hmem⟩ := matchesGo_mem_exists pdf l i c hc
  exact hle.trans (le_of_eq (candidatesFor_mem_spec pdf idx a c hmem).1.symm)

theorem matchesGo_idx_lt (pdf : PdfFile) :
    ∀ (l : List ScreenedArticle) (i : Nat) (c : MatchCand),
      c ∈ matchesGo pdf i l → c.idx < i + l.length := by
  intro l
  induction l with
  | nil => intro i c hc; simp [matchesGo] at hc
  | cons a rest ih =>
    intro i c hc
    rcases List.mem_append.mp hc with hc | hc
    · have := (candidatesFor_mem_spec pdf i a c hc).1
      simp only [List.length_cons]
      omega
    · have := ih (i + 1) c hc
      simp only [List.length_cons]
      omega

theorem matchesGo_sorted (pdf : PdfFile) :
    ∀ (l : List ScreenedArticle) (i : Nat),
      (matchesGo pdf i l).Pairwise (fun a b => a.idx ≤ b.idx) := by
  intro l
  induction l with
  | nil => intro i; simp [matchesGo]
  | cons a rest ih =>
    intro i
    apply List.pairwise_append.mpr
    refine ⟨?_, ih (i + 1), ?_⟩
    · have hall : ∀ c ∈ candidatesFor pdf i a, c.idx = i := fun c hc =>
        (candidatesFor_mem_spec pdf i a c hc).1
      exact List.Pairwise.imp_of_mem
        (fun {x y} hx hy _ => le_of_eq ((hall x hx).trans (hall y hy).symm))
        (List.pairwise_of_forall_mem_list (fun x _ y _ => trivial))
    · intro x hx y hy
      have hx' := (candidatesFor_mem_spec pdf i a x hx).1
      have hy' := matchesGo_idx_ge pdf rest (i + 1) y hy
      omega

theorem matchesGo_contains (pdf : PdfFile) :
    ∀ (l : List ScreenedArticle) (i j : Nat) (hj : j < l.length) (c : MatchCand),
      c ∈ candidatesFor pdf (i + j) (l.get ⟨j, hj⟩) → c ∈ matchesGo pdf i l := by
  intro l
  induction l with
  | nil => intro i j hj; simp at hj
  | cons a rest ih =>
    intro i j hj c hc
    cases j with
    | zero =>
      simp only [List.get] at hc
      exact List.mem_append.mpr (Or.inl (by simpa using hc))
    | succ j' =>
      apply List.mem_append.mpr
      right
      apply ih (i + 1) j' (by simpa using Nat.lt_of_succ_lt_succ hj) c
      have : i + 1 + j' = i + (j' + 1) := by omega
      rw [this]
      exact hc

/-! ### Claim C3: the sequential-position strategy -/

/-- C3.  If the artifact's filename starts with digits parsing to `n`
followed by an underscore, and `n` is the 1-based position of some record,
then the matcher's best match is the sequential-position candidate on that
record with confidence exactly 98, and every candidate any other strategy
produces, for any record, scores at most 95 -- hence is strictly dominated
regardless of title overlap. -/
theorem sequential_position_match_dominates (pdf : PdfFile)
    (articles : List ScreenedArticle) (n : Nat)
    (hpn : parsePdfNumber pdf.name = some n) (h1 : 1 ≤ n)
    (h2 : n ≤ articles.length) :
    tryMatchPdfToArticle pdf articles = some ⟨n - 1, Strategy.pdfNumber n, 98⟩ ∧
      ∀ c ∈ matchesFor pdf articles,
        c = ⟨n - 1, Strategy.pdfNumber n, 98⟩ ∨ c.conf ≤ 95 := by
  have hj : n - 1 < articles.length := by omega
  have hseq : candidatesFor pdf (n - 1) (articles.get ⟨n - 1, hj⟩) =
      [⟨n - 1, Strategy.pdfNumber n, 98⟩] :=
    candidatesFor_seq pdf (n - 1) _ n hpn (by omega)
  have hmem : (⟨n - 1, Strategy.pdfNumber n, 98⟩ : MatchCand) ∈ matchesFor pdf articles := by
    apply matchesGo_contains pdf articles 0 (n - 1) hj
    rw [Nat.zero_add, hseq]
    exact List.mem_singleton.mpr rfl
  have hall : ∀ c ∈ matchesFor pdf articles,
      c = ⟨n - 1, Strategy.pdfNumber n, 98⟩ ∨ c.conf ≤ 95 := by
    intro c hc
    obtain ⟨idx, a, -, hmemc⟩ := matchesGo_mem_exists pdf articles 0 c hc
    obtain ⟨hidx, hcase⟩ := candidatesFor_mem_spec pdf idx a c hmemc
    rcases hcase with ⟨n', hn', hidx', rfl⟩ | hle
    · left
      rw [hpn] at hn'
      have hnn : n = n' := Option.some.inj hn'
      subst hnn
      have hni : n - 1 = idx := by omega
      rw [hni]
    · exact Or.inr hle
  refine ⟨?_, hall⟩
  apply pyMax_eq_of_unique_max
  · exact hmem
  · intro x hx hne
    rcases hall x hx with rfl | hle
    · exact absurd rfl hne
    · calc (fun c : MatchCand => c.conf) x ≤ 95 := hle
        _ < 98 := by norm_num

/-- The five-record corpus of the spec scenario; the record at 1-based
position 3 is titled "Diabetes Risk Factors". -/
def diabetesCorpus : List ScreenedArticle :=
  [⟨"1".data, "Alpha One Study".data, "Smith J".data, "2001".data⟩,
   ⟨"2".data, "Beta Two Study".data, "Jones K".data, "2002".data⟩,
   ⟨"3".data, "Diabetes Risk Factors".data, "Brown L".data, "2003".data⟩,
   ⟨"4".data, "Delta Four Study".data, "White M".data, "2004".data⟩,
   ⟨"5".data, "Epsilon Five Study".data, "Green N".data, "2005".data⟩]

def diabetesPdf : PdfFile := ⟨"3_Some Study on Diabetes.pdf".data⟩

/-- Witness for `sequential_position_match_dominates` on the spec scenario
`"3_Some Study on Diabetes.pdf"` against the five-record corpus. -/
theorem sequential_position_match_dominates_witness :
    parsePdfNumber diabetesPdf.name = some 3 ∧ 1 ≤ 3 ∧ 3 ≤ diabetesCorpus.length ∧
      tryMatchPdfToArticle diabetesPdf diabetesCorpus =
        some ⟨2, Strategy.pdfNumber 3, 98⟩ :=
  ⟨by decide, by decide, by decide,
    (sequential_position_match_dominates diabetesPdf diabetesCorpus 3
      (by decide) (by decide) (by decide)).1⟩

/-! ### Claim C10: ties go to the earliest record -/

/-- C10.  The best match returned by `try_match_pdf_to_article` is a
candidate of maximal confidence, and among all candidates tied at that
confidence it is the one whose record occurs earliest in the corpus
iteration order (Python's `max` keeps the first maximal element, and the
candidate list is grouped by ascending record position); the selection step
itself reports no conflict for such ties. -/
theorem best_match_ties_go_to_earliest_record (pdf : PdfFile)
    (articles : List ScreenedArticle) (c : MatchCand)
    (h : tryMatchPdfToArticle pdf articles = some c) :
    c ∈ matchesFor pdf articles ∧
      (∀ d ∈ matchesFor pdf articles, d.conf ≤ c.conf) ∧
      ∀ d ∈ matchesFor pdf articles, d.conf = c.conf → c.idx ≤ d.idx := by
  have hmem := pyMax_mem _ _ _ h
  have hge := pyMax_ge _ _ _ h
  refine ⟨hmem, hge, ?_⟩
  obtain ⟨m1, m2, heq, hlt, -⟩ := pyMax_spec _ _ _ h
  have hsort : (matchesFor pdf articles).Pairwise (fun a b => a.idx ≤ b.idx) :=
    matchesGo_sorted pdf articles 0
  rw [heq] at hsort
  intro d hd hdc
  rw [heq] at hd
  rcases List.mem_append.mp hd with hd | hd
  · exact absurd hdc (ne_of_lt (hlt d hd))
  · rcases List.mem_cons.mp hd with rfl | hd
    · exact le_refl _
    · have hpc := (List.pairwise_append.mp hsort).2.1
      exact (List.pairwise_cons.mp hpc).1 d hd

/-- Two records whose ids both occur in the filename: both get an
`article_id` candidate at confidence 95, a tie. -/
def tieArticles : List ScreenedArticle :=
  [⟨"7".data, "X".data, [], []⟩, ⟨"7".data, "Y".data, [], []⟩]

def tiePdf : PdfFile := ⟨"paper 7.pdf".data⟩

/-- Witness for `best_match_ties_go_to_earliest_record`: with two records
tied at confidence 95 the matcher returns the record at position 0. -/
theorem best_match_ties_go_to_earliest_record_witness :
    tryMatchPdfToArticle tiePdf tieArticles = some ⟨0, Strategy.articleId, 95⟩ ∧
      (∀ d ∈ matchesFor tiePdf tieArticles,
        d.conf = (⟨0, Strategy.articleId, 95⟩ : MatchCand).conf →
          (⟨0, Strategy.articleId, 95⟩ : MatchCand).idx ≤ d.idx) :=
  ⟨by decide,
    (best_match_ties_go_to_earliest_record tiePdf tieArticles
      ⟨0, Strategy.articleId, 95⟩ (by decide)).2.2⟩

/-! ### Claim C6: the word-matching confidence formulas -/

/-- The confidence formulas for the candidates contributed by strategies
3, 3.5 and 4, stated against the standalone word-count functions. -/
theorem word_match_formula_tail (st ti au yr : Str) (idx : Nat) (c : MatchCand)
    (hc : c ∈ (strat3 st ti idx).toList ++ (strat35 st ti idx).toList ++
      (strat4 st au yr idx).toList) (m k : Nat) :
    (c.tag = Strategy.firstWords m k →
      m = countMatches (firstFiveWords ti) st ∧ k = (firstFiveWords ti).length ∧
        c.conf = min 95 (40 + 15 * (m : ℚ) + searchBonusFor st ti)) ∧
    (c.tag = Strategy.anyWords m k →
      m = countMatches (significantWords ti) st ∧ k = (significantWords ti).length ∧
        c.conf = min 85 (30 + 30 * ((m : ℚ) / (k : ℚ)) + 5 * (m : ℚ)
          + searchBonusFor st ti)) := by
  simp only [List.mem_append, Option.mem_toList, Option.mem_def] at hc
  rcases hc with (hc | hc) | hc
  · have := strat3_spec _ _ _ _ hc
    subst this
    constructor
    · intro h
      simp only [Strategy.firstWords.injEq] at h
      obtain ⟨rfl, rfl⟩ := h
      refine ⟨rfl, rfl, ?_⟩
      ring_nf
    · intro h
      simp at h
  · have := strat35_spec _ _ _ _ hc
    subst this
    constructor
    · intro h
      simp at h
    · intro h
      simp only [Strategy.anyWords.injEq] at h
      obtain ⟨rfl, rfl⟩ := h
      refine ⟨rfl, rfl, ?_⟩
      ring_nf
  · obtain ⟨l, y, rfl⟩ := strat4_spec _ _ _ _ _ hc
    exact ⟨fun h => by simp at h, fun h => by simp at h⟩

/-- C6.  Every leading-title-words candidate scores
`min(95, 40 + 15*matchCount + topicalBonus)` where `matchCount` counts the
title's first five words longer than two characters occurring as substrings
of the filename stem; every any-significant-word candidate scores
`min(85, 30 + 30*(matchCount/significantCount) + 5*matchCount + topicalBonus)`
over the non-stop-word title words longer than two characters.  (The fixed
20-point topical bonus for a shared `'search'` keyword is added inside the
respective cap, consistently with the spec's stated 40-95 and up-to-85
confidence ranges.) -/
theorem word_match_confidence_formulas (pdf : PdfFile) (idx : Nat)
    (article : ScreenedArticle) (c : MatchCand)
    (hc : c ∈ candidatesFor pdf idx article) (m k : Nat) :
    (c.tag = Strategy.firstWords m k →
      m = countMatches (firstFiveWords (lowerStr article.title))
            (lowerStr (pathStem pdf.name)) ∧
        k = (firstFiveWords (lowerStr article.title)).length ∧
        c.conf = min 95 (40 + 15 * (m : ℚ) +
          searchBonusFor (lowerStr (pathStem pdf.name)) (lowerStr article.title))) ∧
    (c.tag = Strategy.anyWords m k →
      m = countMatches (significantWords (lowerStr article.title))
            (lowerStr (pathStem pdf.name)) ∧
        k = (significantWords (lowerStr article.title)).length ∧
        c.conf = min 85 (30 + 30 * ((m : ℚ) / (k : ℚ)) + 5 * (m : ℚ) +
          searchBonusFor (lowerStr (pathStem pdf.name)) (lowerStr article.title))) := by
  simp only [candidatesFor] at hc
  rcases hpn : parsePdfNumber pdf.name with - | n
  · rw [hpn] at hc
    dsimp only at hc
    split at hc
    · simp only [List.mem_singleton] at hc
      subst hc
      exact ⟨fun h => by simp at h, fun h => by simp at h⟩
    · exact word_match_formula_tail _ _ _ _ _ _ hc m k
  · rw [hpn] at hc
    dsimp only at hc
    by_cases hn : n = idx + 1
    · rw [if_pos hn] at hc
      dsimp only at hc
      simp only [List.mem_singleton] at hc
      subst hc
      exact ⟨fun h => by simp at h, fun h => by simp at h⟩
    · rw [if_neg hn] at hc
      dsimp only at hc
      split at hc
      · simp only [List.mem_singleton] at hc
        subst hc
        exact ⟨fun h => by simp at h, fun h => by simp at h⟩
      · exact word_match_formula_tail _ _ _ _ _ _ hc m k

/-- An artifact and record sharing the `'search'` keyword: strategy 3 yields
`first_words(5/5)` and strategy 3.5 yields `any_words(5/6)`. -/
def bonusPdf : PdfFile := ⟨"search methods heart failure outcomes.pdf".data⟩

def bonusArticle : ScreenedArticle :=
  ⟨"9".data, "Search Methods Heart Failure Outcomes Review".data,
   "Doe A".data, "2010".data⟩

/-- The candidates produced for `bonusPdf` against `bonusArticle`, written
with their confidence expressions unevaluated. -/
def bonusStem : Str := lowerStr (pathStem bonusPdf.name)

def bonusTitle : Str := lowerStr bonusArticle.title

def bonusCand3 : MatchCand :=
  ⟨0, Strategy.firstWords (countMatches (firstFiveWords bonusTitle) bonusStem)
      (firstFiveWords bonusTitle).length,
    min 95 ((40 + (countMatches (firstFiveWords bonusTitle) bonusStem : ℚ) * 15)
      + searchBonusFor bonusStem bonusTitle)⟩

def bonusCand35 : MatchCand :=
  ⟨0, Strategy.anyWords (countMatches (significantWords bonusTitle) bonusStem)
      (significantWords bonusTitle).length,
    min 85 (30 + ((countMatches (significantWords bonusTitle) bonusStem : ℚ)
        / ((significantWords bonusTitle).length : ℚ)) * 30
      + (countMatches (significantWords bonusTitle) bonusStem : ℚ) * 5
      + searchBonusFor bonusStem bonusTitle)⟩

/-- Witness for `word_match_confidence_formulas` on a concrete pair
exercising both strategies, with the topical bonus active: the strategy-3
candidate is `first_words(5/5)` and the strategy-3.5 candidate is
`any_words(5/6)`. -/
theorem word_match_confidence_formulas_witness :
    (bonusCand3 ∈ candidatesFor bonusPdf 0 bonusArticle ∧
      bonusCand3.tag = Strategy.firstWords 5 5 ∧
      (5 = countMatches (firstFiveWords (lowerStr bonusArticle.title))
            (lowerStr (pathStem bonusPdf.name)) ∧
        5 = (firstFiveWords (lowerStr bonusArticle.title)).length ∧
        bonusCand3.conf =
          min 95 (40 + 15 * (5 : ℚ) +
            searchBonusFor (lowerStr (pathStem bonusPdf.name))
              (lowerStr bonusArticle.title)))) ∧
    (bonusCand35 ∈ candidatesFor bonusPdf 0 bonusArticle ∧
      bonusCand35.tag = Strategy.anyWords 5 6 ∧
      (5 = countMatches (significantWords (lowerStr bonusArticle.title))
            (lowerStr (pathStem bonusPdf.name)) ∧
        6 = (significantWords (lowerStr bonusArticle.title)).length ∧
        bonusCand35.conf =
          min 85 (30 + 30 * ((5 : ℚ) / (6 : ℚ)) + 5 * (5 : ℚ) +
            searchBonusFor (lowerStr (pathStem bonusPdf.name))
              (lowerStr bonusArticle.title)))) :=
  ⟨⟨by exact List.mem_cons_self bonusCand3 [bonusCand35], by decide,
    (word_match_confidence_formulas bonusPdf 0 bonusArticle
      bonusCand3 (by exact List.mem_cons_self bonusCand3 [bonusCand35]) 5 5).1
      (by decide)⟩,
   ⟨by exact List.mem_cons_of_mem bonusCand3 (List.mem_cons_self bonusCand35 []),
    by decide,
    (word_match_confidence_formulas bonusPdf 0 bonusArticle
      bonusCand35
      (by exact List.mem_cons_of_mem bonusCand3 (List.mem_cons_self bonusCand35 []))
      5 6).2 (by decide)⟩⟩

/-! ### Claim C5: the term planner -/

theorem keywordSetsGo_priority_ge (l : List (List Str)) :
    ∀ i, ∀ ts ∈ keywordSetsGo i l, 2 + i ≤ ts.priority := by
  induction l with
  | nil => intro i ts hts; simp [keywordSetsGo] at hts
  | cons combo rest ih =>
    intro i ts hts
    rcases List.mem_cons.mp hts with rfl | hts
    · exact le_refl _
    · exact (by omega : 2 + i ≤ 2 + (i + 1)).trans (ih (i + 1) ts hts)

theorem keywordSetsGo_pairwise (l : List (List Str)) :
    ∀ i, (keywordSetsGo i l).Pairwise (fun a b => a.priority < b.priority) := by
  induction l with
  | nil => intro i; simp [keywordSetsGo]
  | cons combo rest ih =>
    intro i
    refine List.pairwise_cons.mpr ⟨fun ts hts => ?_, ih (i + 1)⟩
    have := keywordSetsGo_priority_ge rest (i + 1) ts hts
    simp only
    omega

theorem keywordTermSets_priority_ge (keywords : List Str) :
    ∀ ts ∈ keywordTermSets keywords, 2 ≤ ts.priority := by
  intro ts hts
  unfold keywordTermSets at hts
  split at hts
  · dsimp only at hts
    split at hts
    · exact (keywordSetsGo_priority_ge _ 0 ts hts).trans_eq' (by omega)
    · simp at hts
  · simp at hts

/-- C5, counterexample.  For the non-empty research question `"it"` the term
extraction yields nothing, so `prepare_search_terms` emits no
research-question set at all: the plan consists of keyword sets only,
contradicting the claim that every non-empty research question contributes
the lowest-priority term set. -/
theorem empty_extraction_drops_research_question_set :
    ("it".data : Str) ≠ [] ∧ pyStrip "it".data ≠ [] ∧
      extractSearchTermsFromResearchQuestion "it".data = [] ∧
      (prepareSearchTerms ["heart".data] (some "it".data)).all
        (fun ts => ts.setType != "research_question".data) = true := by
  refine ⟨by decide, by decide, by decide, by decide⟩

/-- C5, amended.  `prepare_search_terms` always returns a non-empty list
(hard-coded fallback included); and whenever the research question is truthy
AND extracting terms from it yields at least one term, the plan starts with
the research-question set at priority 1 while every other set has a strictly
larger priority value, so the research-question set is tried first. -/
theorem plan_nonempty_and_rq_lowest_priority (keywords : List Str)
    (rq : Option Str) :
    prepareSearchTerms keywords rq ≠ [] ∧
      ∀ s, rq = some s → s ≠ [] → pyStrip s ≠ [] →
        extractSearchTermsFromResearchQuestion s ≠ [] →
        ∃ rest, prepareSearchTerms keywords rq =
            { terms := extractSearchTermsFromResearchQuestion s,
              setType := "research_question".data, priority := 1,
              description := "Research question based terms".data } :: rest ∧
          ∀ ts ∈ rest, 1 < ts.priority := by
  constructor
  · unfold prepareSearchTerms
    dsimp only
    split
    · simp
    · assumption
  · intro s hrq hs hstrip hterms
    subst hrq
    have hrqsets : rqTermSets (some s) =
        [{ terms := extractSearchTermsFromResearchQuestion s,
           setType := "research_question".data, priority := 1,
           description := "Research question based terms".data }] := by
      unfold rqTermSets
      dsimp only
      rw [if_pos ⟨hs, hstrip⟩]
      rw [if_pos hterms]
    refine ⟨keywordTermSets keywords, ?_, ?_⟩
    · unfold prepareSearchTerms
      dsimp only
      rw [hrqsets]
      simp only [List.cons_append, List.nil_append]
      rw [if_neg (by simp)]
    · intro ts hts
      exact lt_of_lt_of_le (by omega) (keywordTermSets_priority_ge keywords ts hts)

/-- Witness for `plan_nonempty_and_rq_lowest_priority` at keywords
`["heart"]` and research question `"diabetes exercise"`. -/
theorem plan_nonempty_and_rq_lowest_priority_witness :
    prepareSearchTerms ["heart".data] (some "diabetes exercise".data) ≠ [] ∧
      ∃ rest, prepareSearchTerms ["heart".data] (some "diabetes exercise".data) =
          { terms := extractSearchTermsFromResearchQuestion "diabetes exercise".data,
            setType := "research_question".data, priority := 1,
            description := "Research question based terms".data } :: rest ∧
        ∀ ts ∈ rest, 1 < ts.priority :=
  ⟨(plan_nonempty_and_rq_lowest_priority ["heart".data]
      (some "diabetes exercise".data)).1,
    (plan_nonempty_and_rq_lowest_priority ["heart".data]
      (some "diabetes exercise".data)).2 "diabetes exercise".data rfl
      (by decide) (by decide) (by decide)⟩

/-! ### Claim C8: fallback order and research-question early exit -/

theorem rqTermSets_priority (rq : Option Str) :
    ∀ ts ∈ rqTermSets rq, ts.priority = 1 := by
  intro ts hts
  unfold rqTermSets at hts
  cases rq with
  | none => simp at hts
  | some s =>
    dsimp only at hts
    split at hts
    · split at hts
      · simp only [List.mem_singleton] at hts
        rw [hts]
      · simp at hts
    · simp at hts

theorem rqTermSets_pairwise (rq : Option Str) :
    (rqTermSets rq).Pairwise (fun a b => a.priority < b.priority) := by
  unfold rqTermSets
  cases rq with
  | none => simp
  | some s =>
    dsimp only
    split
    · split
      · simp
      · simp
    · simp

theorem prepareSearchTerms_sorted (keywords : List Str) (rq : Option Str) :
    (prepareSearchTerms keywords rq).Pairwise (fun a b => a.priority < b.priority) := by
  unfold prepareSearchTerms
  dsimp only
  split
  · simp
  · apply List.pairwise_append.mpr
    refine ⟨rqTermSets_pairwise rq, ?_, ?_⟩
    · unfold keywordTermSets
      split
      · dsimp only
        split
        · exact keywordSetsGo_pairwise _ 0
        · simp
      · simp
    · intro a ha b hb
      have h1 := rqTermSets_priority rq a ha
      have h2 := keywordTermSets_priority_ge keywords b hb
      omega

theorem nat_div3_le_of_rat (cap len : Nat) (h : (cap : ℚ) / 3 ≤ (len : ℚ)) :
    cap / 3 ≤ len := by
  have h1 : (cap : ℚ) ≤ (len : ℚ) * 3 := (div_le_iff₀ (by norm_num)).mp h
  have h2 : cap ≤ len * 3 := by exact_mod_cast h1
  omega

/-- C8.  The orchestrator consumes the planner's term sets in list order,
and the planner emits them in strictly increasing priority order; a term
set yielding no results is skipped and the next one is consulted; and as
soon as a research-question term set yields at least one-third of the
per-source result cap, the remaining term sets are not attempted: the loop
result is already determined, whatever the rest of the list holds. -/
theorem term_sets_priority_order_and_early_exit
    (sourceSearch : Str → List Str → List RawArticle × Str) (cap : Nat)
    (source : Str) (keywords : List Str) (rq : Option Str) :
    (prepareSearchTerms keywords rq).Pairwise (fun a b => a.priority < b.priority) ∧
      (∀ (st : List RawArticle × Str × Option (List Str)) (ts : TermSet)
          (rest : List TermSet), (sourceSearch source ts.terms).1 = [] →
        trySets sourceSearch cap source st (ts :: rest) =
          trySets sourceSearch cap source st rest) ∧
      (∀ (arts : List RawArticle) (method : Str) (best : Option (List Str))
          (ts : TermSet) (rest : List TermSet),
        ts.setType = "research_question".data →
        (sourceSearch source ts.terms).1 ≠ [] →
        (cap : ℚ) / 3 ≤ ((sourceSearch source ts.terms).1.length : ℚ) →
        trySets sourceSearch cap source (arts, method, best) (ts :: rest) =
          (arts ++ (sourceSearch source ts.terms).1,
            (sourceSearch source ts.terms).2 ++ '_' :: ts.setType,
            some ts.terms)) := by
  refine ⟨prepareSearchTerms_sorted keywords rq, ?_, ?_⟩
  · intro st ts rest hempty
    obtain ⟨arts, method, best⟩ := st
    conv_lhs => unfold trySets
    rw [if_pos hempty]
  · intro arts method best ts rest hty hne hq
    conv_lhs => unfold trySets
    rw [if_neg hne, if_pos ⟨hty, nat_div3_le_of_rat cap _ hq⟩]

def c8Article : RawArticle :=
  ⟨"A sufficiently long title".data, none, none, none, none⟩

/-- An adapter that never finds anything. -/
def c8EmptyAdapter : Str → List Str → List RawArticle × Str :=
  fun _ _ => ([], "none".data)

/-- An adapter that returns 34 results (at least one-third of a cap of 100)
for every query. -/
def c8FullAdapter : Str → List Str → List RawArticle × Str :=
  fun _ _ => (List.replicate 34 c8Article, "api".data)

def c8RqSet : TermSet :=
  ⟨["diabetes".data], "research_question".data, 1, [] ⟩

def c8KwSet : TermSet :=
  ⟨["heart".data], "keywords".data, 2, [] ⟩

/-- Witness for `term_sets_priority_order_and_early_exit`: a no-result term
set falls through to the next one, and a research-question set with 34 of
100 results stops the chain before the keyword set. -/
theorem term_sets_priority_order_and_early_exit_witness :
    (prepareSearchTerms ["heart".data] none).Pairwise
        (fun a b => a.priority < b.priority) ∧
      trySets c8EmptyAdapter 100 "S".data ([], "none".data, none)
          [c8RqSet, c8KwSet] =
        trySets c8EmptyAdapter 100 "S".data ([], "none".data, none) [c8KwSet] ∧
      trySets c8FullAdapter 100 "S".data ([], "none".data, none)
          [c8RqSet, c8KwSet] =
        ([] ++ (c8FullAdapter "S".data c8RqSet.terms).1,
          (c8FullAdapter "S".data c8RqSet.terms).2 ++ '_' :: c8RqSet.setType,
          some c8RqSet.terms) :=
  ⟨(term_sets_priority_order_and_early_exit c8EmptyAdapter 100 "S".data
      ["heart".data] none).1,
   (term_sets_priority_order_and_early_exit c8EmptyAdapter 100 "S".data
      ["heart".data] none).2.1 ([], "none".data, none) c8RqSet [c8KwSet] rfl,
   (term_sets_priority_order_and_early_exit c8FullAdapter 100 "S".data
      ["heart".data] none).2.2 [] "none".data none c8RqSet [c8KwSet] rfl
      (by decide) (by norm_num [c8FullAdapter])⟩

/-! ### Claim C9: a run in which every source comes up empty -/

theorem trySets_all_empty (f : Str → List Str → List RawArticle × Str)
    (cap : Nat) (source : Str) (hf : ∀ terms, (f source terms).1 = []) :
    ∀ (sets : List TermSet) (st : List RawArticle × Str × Option (List Str)),
      trySets f cap source st sets = st := by
  intro sets
  induction sets with
  | nil => intro st; obtain ⟨a, m, b⟩ := st; rfl
  | cons ts rest ih =>
    intro st
    obtain ⟨arts, method, best⟩ := st
    conv_lhs => unfold trySets
    rw [if_pos (hf ts.terms)]
    exact ih (arts, method, best)

theorem sourceStep_all_empty (f : Str → List Str → List RawArticle × Str)
    (cap : Nat) (termSets : List TermSet)
    (acc : List TaggedArticle × List Str × List Str) (source : Str)
    (hf : ∀ terms, (f source terms).1 = []) :
    sourceStep f cap termSets acc source =
      (acc.1, acc.2.1, acc.2.2 ++ [source ++ ':' :: "none".data]) := by
  obtain ⟨allArts, succ, fail⟩ := acc
  unfold sourceStep
  rw [trySets_all_empty f cap source hf termSets]
  simp

theorem foldl_sourceStep_all_empty (f : Str → List Str → List RawArticle × Str)
    (cap : Nat) (termSets : List TermSet)
    (hf : ∀ source terms, (f source terms).1 = []) :
    ∀ (sources : List Str) (acc : List TaggedArticle × List Str × List Str),
      sources.foldl (sourceStep f cap termSets) acc =
        (acc.1, acc.2.1,
          acc.2.2 ++ sources.map (fun s => s ++ ':' :: "none".data)) := by
  intro sources
  induction sources with
  | nil => intro acc; simp
  | cons source rest ih =>
    intro acc
    rw [List.foldl_cons, sourceStep_all_empty f cap termSets acc source (hf source),
      ih]
    simp

theorem count_map_append_zero (t s : Str) :
    ∀ sources : List Str, s ∉ sources →
      (sources.map (fun u => u ++ t)).count (s ++ t) = 0 := by
  intro sources
  induction sources with
  | nil => intro _; rfl
  | cons a rest ih =>
    intro hs
    have hne : ¬(s ++ t = a ++ t) := fun h => by
      have := List.append_left_injective t h
      exact hs (this ▸ List.mem_cons_self a rest)
    simp only [List.map_cons, List.count_cons, beq_iff_eq,
      ih (fun h => hs (List.mem_cons_of_mem a h))]
    rw [if_neg (fun h => hne h.symm)]

theorem count_map_append_one (t s : Str) :
    ∀ sources : List Str, sources.Nodup → s ∈ sources →
      (sources.map (fun u => u ++ t)).count (s ++ t) = 1 := by
  intro sources
  induction sources with
  | nil => intro _ hs; simp at hs
  | cons a rest ih =>
    intro hnd hs
    obtain ⟨hna, hndr⟩ := List.nodup_cons.mp hnd
    rcases List.mem_cons.mp hs with rfl | hs
    · simp only [List.map_cons, List.count_cons, beq_iff_eq, if_pos rfl,
        count_map_append_zero t s rest hna]
      simp
    · have hne : ¬(s ++ t = a ++ t) := fun h => by
        have := List.append_left_injective t h
        exact hna (this ▸ hs)
      simp only [List.map_cons, List.count_cons, beq_iff_eq, ih hndr hs]
      rw [if_neg (fun h => hne h.symm)]

/-- C9.  When every configured source adapter returns zero results for every
query, the run yields an empty corpus (not an error), an empty success list,
a failure list holding exactly one `source:none` entry per source (exactly
once each when the configured sources are distinct, and never also in the
success list), and a derived success rate of 0. -/
theorem all_sources_empty_statistics (f : Str → List Str → List RawArticle × Str)
    (cap : Nat) (keywords : List Str) (sources : List Str) (rq : Option Str)
    (hk : ¬(keywords = [] ∧ ¬ rqTruthy rq)) (hnd : sources.Nodup)
    (hf : ∀ source terms, (f source terms).1 = []) :
    (searchAllSources f cap keywords sources rq).1 = [] ∧
      (searchAllSources f cap keywords sources rq).2.1 = [] ∧
      (searchAllSources f cap keywords sources rq).2.2 =
        sources.map (fun s => s ++ ':' :: "none".data) ∧
      (∀ s ∈ sources,
        ((searchAllSources f cap keywords sources rq).2.2).count
          (s ++ ':' :: "none".data) = 1) ∧
      (getStatistics (searchAllSources f cap keywords sources rq).2.1
        (searchAllSources f cap keywords sources rq).2.2).2.2 = 0 := by
  have hrun : searchAllSources f cap keywords sources rq =
      ([], [], sources.map (fun s => s ++ ':' :: "none".data)) := by
    unfold searchAllSources
    rw [if_neg hk]
    dsimp only
    rw [foldl_sourceStep_all_empty f cap _ hf sources ([], [], [])]
    simp
  refine ⟨by rw [hrun], by rw [hrun], by rw [hrun], ?_, ?_⟩
  · intro s hs
    rw [hrun]
    dsimp only
    exact count_map_append_one _ s sources hnd hs
  · rw [hrun]
    simp [getStatistics]

/-- Witness for `all_sources_empty_statistics`: two distinct sources, one
keyword, an adapter that always returns nothing. -/
theorem all_sources_empty_statistics_witness :
    (searchAllSources c8EmptyAdapter 100 ["x".data] ["A".data, "B".data] none).1
        = [] ∧
      (searchAllSources c8EmptyAdapter 100 ["x".data] ["A".data, "B".data]
          none).2.2 =
        ["A".data ++ ':' :: "none".data, "B".data ++ ':' :: "none".data] ∧
      (getStatistics
        (searchAllSources c8EmptyAdapter 100 ["x".data] ["A".data, "B".data]
          none).2.1
        (searchAllSources c8EmptyAdapter 100 ["x".data] ["A".data, "B".data]
          none).2.2).2.2 = 0 := by
  have h := all_sources_empty_statistics c8EmptyAdapter 100 ["x".data]
    ["A".data, "B".data] none (by decide) (by decide) (fun _ _ => rfl)
  exact ⟨h.1, h.2.2.1, h.2.2.2.2⟩

/-! ### Claim C4: the per-source adapter boundary -/

/-- An internal adapter technique that produced nothing: it either raised
(caught by its own `try`) or parsed zero results. -/
def noResults : Except Str (List RawArticle) → Prop
  | .error _ => True
  | .ok l => l = []

/-- C4, counterexample.  The spec says any failure yields the method tag
`"failed"`; but an exception crossing the per-source boundary is caught and
tagged `"error"` instead (lines 294-297). -/
theorem adapter_exception_tagged_error_not_failed :
    searchSingleSourceWithTerms (fun _ _ => Except.error "network error".data)
        ["heart".data] "PubMed API".data = ([], "error".data) ∧
      ("error".data : Str) ≠ "failed".data :=
  ⟨rfl, by decide⟩

/-- C4, amended.  The per-source search is total (never raises past its
boundary) and always returns zero records on failure, but the method tag
distinguishes the failure mode: an exception reaching the boundary is caught
and tagged `"error"`, an empty term list is tagged `"no_terms"`, and only an
adapter whose internal techniques are all exhausted reports `"failed"`
(shown for the Google Scholar adapter); in each case the caller records the
source in the failure statistics with method `"none"`. -/
theorem adapter_failures_return_empty_and_are_recorded
    (dispatch : Str → List Str → Except Str (List RawArticle × Str)) :
    (∀ (terms : List Str) (source : Str), terms ≠ [] →
        ∀ e, dispatch source terms = Except.error e →
        searchSingleSourceWithTerms dispatch terms source = ([], "error".data)) ∧
      (∀ source : Str,
        searchSingleSourceWithTerms dispatch [] source = ([], "no_terms".data)) ∧
      (∀ s1 s2 s3, noResults s1 → noResults s2 → noResults s3 →
        searchGoogleScholarRobust s1 s2 s3 = ([], "failed".data)) ∧
      (∀ (cap : Nat) (keywords : List Str) (source : Str) (rq : Option Str),
        ¬(keywords = [] ∧ ¬ rqTruthy rq) →
        (∀ terms, ∃ e, dispatch source terms = Except.error e) →
        (searchAllSources
            (fun src terms => searchSingleSourceWithTerms dispatch terms src)
            cap keywords [source] rq).2.2 = [source ++ ':' :: "none".data]) := by
  refine ⟨?_, ?_, ?_, ?_⟩
  · intro terms source hterms e he
    unfold searchSingleSourceWithTerms
    rw [if_neg hterms, he]
  · intro source
    rfl
  · intro s1 s2 s3 h1 h2 h3
    rcases s1 with e1 | l1
    · rcases s2 with e2 | l2
      · rcases s3 with e3 | l3
        · rfl
        · rw [show l3 = [] from h3]; rfl
      · rw [show l2 = [] from h2]
        rcases s3 with e3 | l3
        · rfl
        · rw [show l3 = [] from h3]; rfl
    · rw [show l1 = [] from h1]
      rcases s2 with e2 | l2
      · rcases s3 with e3 | l3
        · rfl
        · rw [show l3 = [] from h3]; rfl
      · rw [show l2 = [] from h2]
        rcases s3 with e3 | l3
        · rfl
        · rw [show l3 = [] from h3]; rfl
  · intro cap keywords source rq hk herr
    have hf : ∀ terms,
        ((fun src terms => searchSingleSourceWithTerms dispatch terms src)
          source terms).1 = [] := by
      intro terms
      unfold searchSingleSourceWithTerms
      dsimp only
      split
      · rfl
      · obtain ⟨e, he⟩ := herr terms
        rw [he]
    unfold searchAllSources
    rw [if_neg hk]
    dsimp only
    rw [List.foldl_cons, List.foldl_nil, sourceStep_all_empty _ _ _ _ _ hf]
    simp

def c4ErrDispatch : Str → List Str → Except Str (List RawArticle × Str) :=
  fun _ _ => Except.error "boom".data

/-- Witness for `adapter_failures_return_empty_and_are_recorded` at a
dispatcher that always raises. -/
theorem adapter_failures_return_empty_and_are_recorded_witness :
    searchSingleSourceWithTerms c4ErrDispatch ["heart".data] "A".data =
        ([], "error".data) ∧
      searchSingleSourceWithTerms c4ErrDispatch [] "A".data =
        ([], "no_terms".data) ∧
      searchGoogleScholarRobust (Except.error "e1".data)
        (Except.error "e2".data) (Except.ok []) = ([], "failed".data) ∧
      (searchAllSources
          (fun src terms => searchSingleSourceWithTerms c4ErrDispatch terms src)
          100 ["x".data] ["A".data] none).2.2 =
        ["A".data ++ ':' :: "none".data] :=
  ⟨(adapter_failures_return_empty_and_are_recorded c4ErrDispatch).1
      ["heart".data] "A".data (by decide) "boom".data rfl,
   (adapter_failures_return_empty_and_are_recorded c4ErrDispatch).2.1 "A".data,
   (adapter_failures_return_empty_and_are_recorded c4ErrDispatch).2.2.1
      (Except.error "e1".data) (Except.error "e2".data) (Except.ok [])
      trivial trivial rfl,
   (adapter_failures_return_empty_and_are_recorded c4ErrDispatch).2.2.2
      100 ["x".data] "A".data none (by decide) (fun _ => ⟨"boom".data, rfl⟩)⟩

/-! ### Claim C7: at most one artifact per record -/

/-- The scan-loop invariant: assigned record positions are pairwise distinct,
and every assigned position's title is in the assigned-title set. -/
def ScanInv (articles : List ScreenedArticle) (st : ScanState) : Prop :=
  (st.assignments.map Prod.fst).Nodup ∧
    ∀ p ∈ st.assignments, titleAt articles p.1 ∈ st.assignedTitles

theorem scanStep_inv (articles : List ScreenedArticle) (st : ScanState)
    (pdf : PdfFile) (h : ScanInv articles st) :
    ScanInv articles (scanStep articles st pdf) := by
  obtain ⟨h1, h2⟩ := h
  unfold scanStep
  rcases htm : tryMatchPdfToArticle pdf articles with - | c
  · exact ⟨h1, h2⟩
  · dsimp only
    split
    · exact ⟨h1, h2⟩
    · rename_i hna
      split
      · constructor
        · rw [List.map_append, List.map_cons, List.map_nil]
          apply List.Nodup.append h1 (List.nodup_singleton _)
          intro i hi hi'
          simp only [List.mem_singleton] at hi'
          subst hi'
          obtain ⟨p, hp, hpfst⟩ := List.mem_map.mp hi
          exact hna (hpfst ▸ h2 p hp)
        · intro p hp
          rcases List.mem_append.mp hp with hp | hp
          · exact List.mem_append.mpr (Or.inl (h2 p hp))
          · simp only [List.mem_singleton] at hp
            subst hp
            exact List.mem_append.mpr (Or.inr (List.mem_singleton.mpr rfl))
      · exact ⟨h1, h2⟩

theorem scanPdfs_foldl_inv (articles : List ScreenedArticle) :
    ∀ (pdfs : List PdfFile) (st : ScanState), ScanInv articles st →
      ScanInv articles (pdfs.foldl (scanStep articles) st) := by
  intro pdfs
  induction pdfs with
  | nil => intro st h; exact h
  | cons pdf rest ih =>
    intro st h
    exact ih (scanStep articles st pdf) (scanStep_inv articles st pdf h)

/-- C7.  After the scan pass each record position occurs at most once in the
recordId-to-artifact assignment map; and whenever an artifact's best match
targets a record whose title is already in the assigned set, the step leaves
every assignment untouched and appends a `duplicate_assignment` conflict
entry to the manual-review list. -/
theorem scan_assigns_each_record_at_most_once (articles : List ScreenedArticle) :
    (∀ pdfs : List PdfFile,
        ((scanPdfs articles pdfs).assignments.map Prod.fst).Nodup) ∧
      ∀ (st : ScanState) (pdf : PdfFile) (c : MatchCand),
        tryMatchPdfToArticle pdf articles = some c →
        titleAt articles c.idx ∈ st.assignedTitles →
        scanStep articles st pdf =
          { st with review := st.review ++
              [⟨pdf.name, some c.idx, ReviewTag.duplicateAssignment c.tag,
                c.conf⟩] } := by
  constructor
  · intro pdfs
    exact (scanPdfs_foldl_inv articles pdfs initScanState
      ⟨List.nodup_nil, by intro p hp; simp [initScanState] at hp⟩).1
  · intro st pdf c htm ha
    unfold scanStep
    rw [htm]
    dsimp only
    rw [if_pos ha]

/-- Two records with short titles so that only the sequential-position
strategy fires. -/
def c7Articles : List ScreenedArticle :=
  [⟨"1".data, "Aa".data, [], []⟩, ⟨"2".data, "Bb".data, [], []⟩]

def c7Pdf : PdfFile := ⟨"1_x.pdf".data⟩

/-- A scan state in which record 0 is already assigned to another file. -/
def c7State : ScanState :=
  ⟨["Aa".data], [(0, "old.pdf".data)], [], 1⟩

/-- Witness for `scan_assigns_each_record_at_most_once`: the pass over one
file assigns distinct records, and a second file targeting the
already-assigned record 0 is reported as a conflict without overwriting. -/
theorem scan_assigns_each_record_at_most_once_witness :
    ((scanPdfs c7Articles [c7Pdf]).assignments.map Prod.fst).Nodup ∧
      scanStep c7Articles c7State c7Pdf =
        { c7State with review := c7State.review ++
            [⟨c7Pdf.name, some 0,
              ReviewTag.duplicateAssignment (Strategy.pdfNumber 1), (98 : ℚ)⟩] } :=
  ⟨(scan_assigns_each_record_at_most_once c7Articles).1 [c7Pdf],
   (scan_assigns_each_record_at_most_once c7Articles).2 c7State c7Pdf
      ⟨0, Strategy.pdfNumber 1, 98⟩ (by decide) (by decide)⟩

end ODR
